import Mathlib

/-
Verification of the lineup-agent repository: a rule-based linting and
enforcement tool.  The TypeScript layer (src/native.ts, src/cli.ts,
src/index.ts) is embedded from the source directly.  The rule engine itself
lives in a Rust native module (native/src) that is not part of the source
tree given here; its behaviour (rules, checks, fixes, report aggregation)
is modelled from the specification and marked as such on each definition.

All strings are modelled as List Char so that every definition is
executable and decidable on concrete inputs.
-/

namespace LineupAgent

/-- Association-list lookup, used to model JSON objects and manifest maps. -/
def lookupKV {α : Type} : List (List Char × α) → List Char → Option α
  | [], _ => none
  | (k, v) :: rest, key => if k = key then some v else lookupKV rest key

/-- Association-list insert-or-replace that keeps the position of an existing
key and appends a missing key at the end. -/
def upsertKV {α : Type} : List (List Char × α) → List Char → α → List (List Char × α)
  | [], key, v => [(key, v)]
  | (k, w) :: rest, key, v =>
    if k = key then (k, v) :: rest else (k, w) :: upsertKV rest key v

/-- Boolean prefix test on character lists. -/
def isPrefixList : List Char → List Char → Bool
  | [], _ => true
  | _ :: _, [] => false
  | c :: cs, d :: ds => c = d && isPrefixList cs ds

/-- Boolean substring test on character lists. -/
def isSubstr (needle : List Char) : List Char → Bool
  | [] => isPrefixList needle []
  | c :: rest => isPrefixList needle (c :: rest) || isSubstr needle rest

/-- Modelled from the spec: word characters for the word-boundary detection of
the package-manager consistency rule (native/src/rules/pnpm_usage.rs is not in
the given source tree; the README issue report documents
contains_standalone_command with word-boundary detection). -/
def wordChar (c : Char) : Bool := c.isAlphanum

/-- The command cmd sits at the head of s as a complete token: cmd is a prefix
of s and the character right after it, when present, is not a word character. -/
def tokenHere : List Char → List Char → Bool
  | [], [] => true
  | [], d :: _ => !wordChar d
  | _ :: _, [] => false
  | c :: cs, d :: ds => c = d && tokenHere cs ds

/-- Scanner behind contains_standalone_command: walk the string, and at every
position that follows a word boundary test whether the command occurs there as
a complete token. -/
def scanTok (cmd : List Char) : Bool → List Char → Bool
  | atB, [] => atB && tokenHere cmd []
  | atB, c :: rest => (atB && tokenHere cmd (c :: rest)) || scanTok cmd (!wordChar c) rest

/-- Modelled from the spec: the word-boundary-aware standalone-command test of
the package-manager consistency rule ("Detection must match the command as a
standalone token (word-boundary aware)"). -/
def contains_standalone_command (s cmd : List Char) : Bool := scanTok cmd true s

/-- Core of the tokeniser: returns the maximal word-character run at the head
of the string together with the remaining complete tokens. -/
def tokensCore : List Char → List Char × List (List Char)
  | [] => ([], [])
  | c :: rest =>
    let p := tokensCore rest
    if wordChar c then (c :: p.1, p.2)
    else ([], if p.1.isEmpty then p.2 else p.1 :: p.2)

/-- The maximal word-character tokens of a string, in order.  This is the
reference notion of "standalone token" the claims are stated against. -/
def tokens (s : List Char) : List (List Char) :=
  if (tokensCore s).1.isEmpty then (tokensCore s).2
  else (tokensCore s).1 :: (tokensCore s).2

/-- Severity of a finding; the README fixes the set to error, warning, info. -/
inductive Severity where
  | error
  | warning
  | info
deriving DecidableEq

/-- Modelled from the spec: one finding of the engine.  The Rust engine's
output observed by the e2e tests carries ruleId, checkId, severity, message,
path, optional line and optional suggestion. -/
structure LintResult where
  ruleId : List Char
  checkId : List Char
  severity : Severity
  message : List Char
  path : List Char
  line : Option Nat
  suggestion : Option (List Char)
deriving DecidableEq

/-- The report shape from src/native.ts (interface LintReport). -/
structure LintReport where
  results : List LintResult
  errorCount : Nat
  warningCount : Nat
  infoCount : Nat
  fixedCount : Nat
deriving DecidableEq

/-- Modelled from the spec: reports are built with counts derived from the
results by severity, plus an independent fixed count. -/
def mkReport (rs : List LintResult) (fixed : Nat) : LintReport :=
  { results := rs
    errorCount := rs.countP (fun r => r.severity == Severity.error)
    warningCount := rs.countP (fun r => r.severity == Severity.warning)
    infoCount := rs.countP (fun r => r.severity == Severity.info)
    fixedCount := fixed }

/-- The well-formedness of a report's derived counts, as stated by the spec. -/
def reportCountsOk (r : LintReport) : Prop :=
  r.errorCount = r.results.countP (fun f => f.severity == Severity.error) ∧
  r.warningCount = r.results.countP (fun f => f.severity == Severity.warning) ∧
  r.infoCount = r.results.countP (fun f => f.severity == Severity.info) ∧
  r.errorCount + r.warningCount + r.infoCount = r.results.length

/-- Field names and optionality flags of the LintResult interface declared in
src/native.ts (lines 21-28): ruleId, severity, message, path, line?,
suggestion?.  Embedded from the source. -/
def tsLintResultFields : List (List Char × Bool) :=
  [("ruleId".toList, false), ("severity".toList, false), ("message".toList, false),
   ("path".toList, false), ("line".toList, true), ("suggestion".toList, true)]

/-- The Finding field list as the specification words it (section 3): ruleId,
checkId, severity, message, path, line?, suggestion?.  This definition follows
the spec's words so it can be compared with the declared interface. -/
def claimedFindingFields : List (List Char × Bool) :=
  [("ruleId".toList, false), ("checkId".toList, false), ("severity".toList, false),
   ("message".toList, false), ("path".toList, false), ("line".toList, true),
   ("suggestion".toList, true)]

/-- A JSON value, used to model the contents of .claude/settings.json. -/
inductive Json where
  | null : Json
  | bool : Bool → Json
  | num : Int → Json
  | str : List Char → Json
  | arr : List Json → Json
  | obj : List (List Char × Json) → Json

def hooksKey : List Char := "hooks".toList

def preToolUseKey : List Char := "PreToolUse".toList

def matcherKey : List Char := "matcher".toList

def commandKey : List Char := "command".toList

def typeKey : List Char := "type".toList

def bashName : List Char := "Bash".toList

def claudeRuleId : List Char := "claude-settings-hooks".toList

def huskyRuleId : List Char := "husky-init".toList

def cspellRuleId : List Char := "cspell-config".toList

def pnpmRuleId : List Char := "pnpm-usage".toList

/-- Modelled from the spec: a PreToolUse entry counts as the required Bash
hook when its matcher field is the string "Bash" (the e2e test accepts an
existing entry with matcher "Bash" and an arbitrary command). -/
def isBashEntry : Json → Bool
  | .obj fields =>
    match lookupKV fields matcherKey with
    | some (.str m) => m == bashName
    | _ => false
  | _ => false

/-- Modelled from the spec: the command of the default security hook, which
blocks git push --no-verify (README, auto-fix behaviour). -/
def blockNoVerifyCommand : List Char :=
  "block git push --no-verify".toList

/-- Modelled from the spec: the default Bash PreToolUse hook entry written by
the fix. -/
def defaultBashEntry : Json :=
  .obj [(matcherKey, .str bashName),
        (hooksKey, .arr [.obj [(typeKey, .str "command".toList),
                               (commandKey, .str blockNoVerifyCommand)]])]

/-- Modelled from the spec: the default hooks payload used when the settings
file is created from scratch. -/
def defaultSettingsFields : List (List Char × Json) :=
  [(hooksKey, .obj [(preToolUseKey, .arr [defaultBashEntry])])]

/-- The state of one repository's .claude/settings.json: the directory may be
missing, the file may be missing, the file may be unparseable, or it parses to
a top-level JSON object with the given fields. -/
inductive SettingsState where
  | absentDir
  | absentFile
  | invalid
  | parsed : List (List Char × Json) → SettingsState

/-- The hooks section of a settings object, when present and itself an
object. -/
def hooksObj (fields : List (List Char × Json)) : Option (List (List Char × Json)) :=
  match lookupKV fields hooksKey with
  | some (.obj hf) => some hf
  | _ => none

/-- The PreToolUse list of a hooks section, when present and an array. -/
def preToolUseList (hf : List (List Char × Json)) : Option (List Json) :=
  match lookupKV hf preToolUseKey with
  | some (.arr entries) => some entries
  | _ => none

/-- Modelled from the spec: the layered detection of the settings-hooks rule
succeeds when hooks.PreToolUse exists and holds an entry with matcher "Bash". -/
def settingsHasBash (fields : List (List Char × Json)) : Bool :=
  match hooksObj fields with
  | some hf =>
    match preToolUseList hf with
    | some entries => entries.any isBashEntry
    | none => false
  | none => false

/-- The hooks section after merging: the required entry appended to the
existing PreToolUse list (both levels default to empty when missing or of the
wrong shape). -/
def mergedHooksFields (fields : List (List Char × Json)) : List (List Char × Json) :=
  upsertKV ((hooksObj fields).getD []) preToolUseKey
    (.arr ((preToolUseList ((hooksObj fields).getD [])).getD [] ++ [defaultBashEntry]))

/-- Modelled from the spec: deep-merge of the required hook entry into an
existing settings object — the required entry is appended to an existing
PreToolUse list, the hooks/PreToolUse levels are created when missing, and no
other key is touched. -/
def mergeBashHook (fields : List (List Char × Json)) : List (List Char × Json) :=
  upsertKV fields hooksKey (.obj (mergedHooksFields fields))

/-- The settings fields after a fix pass over a parsed settings object. -/
def fixedSettingsFields (fields : List (List Char × Json)) : List (List Char × Json) :=
  if settingsHasBash fields then fields else mergeBashHook fields

/-- Modelled from the spec: the error finding for a repository with no
.claude directory; its message mentions the directory name. -/
def missingClaudeDirFinding (path : List Char) : LintResult :=
  ⟨claudeRuleId, "claude-dir-exists".toList, .error,
   "Missing .claude directory with settings.json".toList, path, none,
   some "Run with --fix to create .claude/settings.json".toList⟩

/-- Modelled from the spec: the check of the claude-settings-hooks rule.  The
layered checks are reported one at a time: missing directory, missing file,
invalid JSON, missing hooks object, missing PreToolUse list, missing Bash
matcher entry. -/
def claudeCheckFile (path : List Char) : SettingsState → List LintResult
  | .absentDir => [missingClaudeDirFinding path]
  | .absentFile =>
    [⟨claudeRuleId, "settings-file-exists".toList, .error,
      "Missing settings.json in the .claude directory".toList, path, none,
      some "Run with --fix to create .claude/settings.json".toList⟩]
  | .invalid =>
    [⟨claudeRuleId, "settings-valid-json".toList, .error,
      "Invalid JSON in .claude/settings.json".toList, path, none, none⟩]
  | .parsed fields =>
    match hooksObj fields with
    | some hf =>
      match preToolUseList hf with
      | some entries =>
        if entries.any isBashEntry then []
        else
          [⟨claudeRuleId, "bash-hook-exists".toList, .error,
            "Missing Bash matcher hook in PreToolUse".toList, path, none, none⟩]
      | none =>
        [⟨claudeRuleId, "pretooluse-hooks-exist".toList, .error,
          "Missing PreToolUse hooks configuration".toList, path, none, none⟩]
    | none =>
      [⟨claudeRuleId, "hooks-config-exists".toList, .error,
        "Missing hooks configuration in settings.json".toList, path, none, none⟩]

/-- Modelled from the spec: the fix of the claude-settings-hooks rule.
A missing directory or file is created with the default hooks payload; an
unparseable file is left untouched (ParseError, fix not attempted); a parsed
object that already has the Bash hook is left untouched with zero fixes;
otherwise the required entry is deep-merged. -/
def claudeFixFile : SettingsState → SettingsState × Nat
  | .absentDir => (.parsed defaultSettingsFields, 1)
  | .absentFile => (.parsed defaultSettingsFields, 1)
  | .invalid => (.invalid, 0)
  | .parsed fields =>
    if settingsHasBash fields then (.parsed fields, 0)
    else (.parsed (mergeBashHook fields), 1)

/-- The package.json manifest of a repository: its scripts map and the names
of its declared dev-dependencies. -/
structure Manifest where
  scripts : List (List Char × List Char)
  devDeps : List (List Char)
deriving DecidableEq

/-- The Cargo.toml manifest of a repository: the names of its declared
dev-dependencies. -/
structure CargoManifest where
  devDeps : List (List Char)
deriving DecidableEq

/-- The filesystem state of one discovered repository, restricted to the
artifacts the built-in rules read and write. -/
structure RepoState where
  path : List Char
  claude : SettingsState
  manifest : Option Manifest
  cargo : Option CargoManifest
  huskyDir : Bool
  hookScript : Option (List (List Char))
  cspellConfig : Bool

def prepareKey : List Char := "prepare".toList

def huskyPackage : List Char := "husky".toList

def huskyRsName : List Char := "husky-rs".toList

def cspellName : List Char := "cspell".toList

def npmName : List Char := "npm".toList

/-- Modelled from the spec: the check of the pre-commit scaffolding
(husky-init) rule.  Checks are skipped entirely when neither ecosystem
manifest is present; the JS ecosystem checks the .husky directory and the
prepare script, the Rust ecosystem checks the husky-rs dev-dependency. -/
def huskyCheckS (s : RepoState) : List LintResult :=
  (match s.manifest with
   | some m =>
     (if s.huskyDir then []
      else
        [⟨huskyRuleId, "husky-dir-exists".toList, .error,
          "Missing .husky directory".toList, s.path, none,
          some "Run with --fix to scaffold husky".toList⟩])
     ++ (if (lookupKV m.scripts prepareKey).isSome then []
         else
           [⟨huskyRuleId, "husky-prepare-script".toList, .warning,
             "Missing prepare script for husky in package.json".toList, s.path,
             none, none⟩])
   | none => [])
  ++ (match s.cargo with
      | some c =>
        if huskyRsName ∈ c.devDeps then []
        else
          [⟨huskyRuleId, "husky-rs-dependency".toList, .warning,
            "Rust project without husky-rs dev-dependency".toList, s.path, none,
            none⟩]
      | none => [])

/-- Modelled from the spec: the default pre-commit hook script scaffolded by
the husky-init fix. -/
def defaultPreCommitLines : List (List Char) :=
  ["#!/bin/sh".toList]

/-- Modelled from the spec: husky-init fix, JS facet one — scaffold the
.husky directory (with its pre-commit script) when package.json is present. -/
def huskyFixDir (s : RepoState) : RepoState × Nat :=
  if s.manifest.isSome && !s.huskyDir then
    ({ s with huskyDir := true, hookScript := some defaultPreCommitLines }, 1)
  else (s, 0)

/-- Modelled from the spec: husky-init fix, JS facet two — declare the
prepare lifecycle script when it is missing. -/
def huskyFixPrepare (s : RepoState) : RepoState × Nat :=
  match s.manifest with
  | some m =>
    if (lookupKV m.scripts prepareKey).isSome then (s, 0)
    else
      ({ s with manifest := some { m with scripts := upsertKV m.scripts prepareKey huskyPackage } }, 1)
  | none => (s, 0)

/-- Modelled from the spec: husky-init fix, Rust facet — declare the husky-rs
dev-dependency when Cargo.toml is present and lacks it. -/
def huskyFixCargo (s : RepoState) : RepoState × Nat :=
  match s.cargo with
  | some c =>
    if huskyRsName ∈ c.devDeps then (s, 0)
    else ({ s with cargo := some { c with devDeps := c.devDeps ++ [huskyRsName] } }, 1)
  | none => (s, 0)

/-- Modelled from the spec: the complete husky-init fix — the three facets in
order, with their fixed counts summed. -/
def huskyFixS (s : RepoState) : RepoState × Nat :=
  ((huskyFixCargo (huskyFixPrepare (huskyFixDir s).1).1).1,
   (huskyFixDir s).2 + (huskyFixPrepare (huskyFixDir s).1).2
     + (huskyFixCargo (huskyFixPrepare (huskyFixDir s).1).1).2)

/-- Modelled from the spec: the tool invocation line the cspell fix appends to
the pre-commit hook script. -/
def cspellInvocationLine : List Char :=
  "pnpm exec cspell --no-progress".toList

/-- Modelled from the spec: the pre-commit hook script already invokes cspell
when some line contains cspell as a standalone command token (substring and
command-token match, tolerating flag differences). -/
def hookHasCspell (lines : List (List Char)) : Bool :=
  lines.any (fun l => contains_standalone_command l cspellName)

/-- Modelled from the spec: the check of the cspell-config rule — three
independent facets: config file exists, dependency declared, tool invoked from
the pre-commit hook.  The rule is silent for repositories without a
package.json (the e2e exit-code tests require a bare repository to lint
clean). -/
def cspellCheckS (s : RepoState) : List LintResult :=
  match s.manifest with
  | none => []
  | some m =>
    (if s.cspellConfig then []
     else
       [⟨cspellRuleId, "cspell-json-exists".toList, .error,
         "Missing cspell.json configuration file".toList, s.path, none,
         some "Run with --fix to create a default cspell.json".toList⟩])
    ++ (if cspellName ∈ m.devDeps then []
        else
          [⟨cspellRuleId, "cspell-dependency".toList, .error,
            "cspell is missing from devDependencies in package.json".toList,
            s.path, none, none⟩])
    ++ (match s.hookScript with
        | some lines =>
          if hookHasCspell lines then []
          else
            [⟨cspellRuleId, "cspell-pre-commit-hook".toList, .warning,
              "cspell is not invoked from the pre-commit hook".toList, s.path,
              none, none⟩]
        | none =>
          [⟨cspellRuleId, "cspell-pre-commit-hook".toList, .warning,
            "cspell is not invoked from the pre-commit hook".toList, s.path,
            none, none⟩])

/-- Modelled from the spec: cspell fix, facet one — create a default config
only when absent (an existing, possibly customised config is never
overwritten). -/
def cspellFixConfig (s : RepoState) : RepoState × Nat :=
  if s.manifest.isSome && !s.cspellConfig then
    ({ s with cspellConfig := true }, 1)
  else (s, 0)

/-- Modelled from the spec: cspell fix, facet two — add the dependency entry
to the manifest's dev-dependency set without disturbing other entries. -/
def cspellFixDep (s : RepoState) : RepoState × Nat :=
  match s.manifest with
  | some m =>
    if cspellName ∈ m.devDeps then (s, 0)
    else ({ s with manifest := some { m with devDeps := m.devDeps ++ [cspellName] } }, 1)
  | none => (s, 0)

/-- Modelled from the spec: cspell fix, facet three — append the tool
invocation line to the hook script only when no equivalent invocation already
exists; a missing hook script is left as a residual finding. -/
def cspellFixHook (s : RepoState) : RepoState × Nat :=
  match s.manifest with
  | none => (s, 0)
  | some _ =>
    match s.hookScript with
    | some lines =>
      if hookHasCspell lines then (s, 0)
      else ({ s with hookScript := some (lines ++ [cspellInvocationLine]) }, 1)
    | none => (s, 0)

/-- Modelled from the spec: the complete cspell-config fix — the three facets
in order, with their fixed counts summed. -/
def cspellFixS (s : RepoState) : RepoState × Nat :=
  ((cspellFixHook (cspellFixDep (cspellFixConfig s).1).1).1,
   (cspellFixConfig s).2 + (cspellFixDep (cspellFixConfig s).1).2
     + (cspellFixHook (cspellFixDep (cspellFixConfig s).1).1).2)

def pnpmSuggestion : List Char :=
  "Replace 'npm' with 'pnpm' in script commands".toList

def pnpmScriptMessage (name : List Char) : List Char :=
  "Script '".toList ++ name ++ "' uses npm command - consider using pnpm".toList

/-- Modelled from the spec: the check of the package-manager consistency rule
— every manifest script whose value contains npm as a standalone command
token is flagged; the rule is report-only (no fix). -/
def pnpmCheckS (s : RepoState) : List LintResult :=
  match s.manifest with
  | none => []
  | some m =>
    m.scripts.filterMap (fun p =>
      if contains_standalone_command p.2 npmName then
        some ⟨pnpmRuleId, "pnpm-script-usage".toList, .warning,
              pnpmScriptMessage p.1, s.path, none, some pnpmSuggestion⟩
      else none)

/-- The claude-settings-hooks check lifted to a repository state. -/
def claudeCheckS (s : RepoState) : List LintResult :=
  claudeCheckFile s.path s.claude

/-- The claude-settings-hooks fix lifted to a repository state. -/
def claudeFixS (s : RepoState) : RepoState × Nat :=
  ({ s with claude := (claudeFixFile s.claude).1 }, (claudeFixFile s.claude).2)

/-- Modelled from the spec: the findings of all registered rules on one
repository, in registration order. -/
def engineChecks (s : RepoState) : List LintResult :=
  claudeCheckS s ++ huskyCheckS s ++ cspellCheckS s ++ pnpmCheckS s

/-- Modelled from the spec: the check-only engine run on one repository. -/
def engineLint (s : RepoState) : LintReport :=
  mkReport (engineChecks s) 0

def afterClaude (s : RepoState) : RepoState := (claudeFixS s).1

def afterHusky (s : RepoState) : RepoState := (huskyFixS (afterClaude s)).1

def afterCspell (s : RepoState) : RepoState := (cspellFixS (afterHusky s)).1

/-- Modelled from the spec: total number of repairs applied by one fix run. -/
def engineFixedCount (s : RepoState) : Nat :=
  (claudeFixS s).2 + (huskyFixS (afterClaude s)).2 + (cspellFixS (afterHusky s)).2

/-- Modelled from the spec: the residual findings of a fix run — each rule's
check is re-invoked right after its fix. -/
def engineResiduals (s : RepoState) : List LintResult :=
  claudeCheckS (afterClaude s) ++ huskyCheckS (afterHusky s)
    ++ cspellCheckS (afterCspell s) ++ pnpmCheckS (afterCspell s)

/-- Modelled from the spec: the fix-then-residual-check engine run on one
repository, returning the resulting repository state and the report. -/
def engineFix (s : RepoState) : RepoState × LintReport :=
  (afterCspell s, mkReport (engineResiduals s) (engineFixedCount s))

/-- Modelled from the spec: a rule of the registry as the engine's error
isolation sees it — a stable id and a check over one repository. -/
structure MRule where
  id : List Char
  check : RepoState → List LintResult

def claudeMRule : MRule := ⟨claudeRuleId, claudeCheckS⟩

def huskyMRule : MRule := ⟨huskyRuleId, huskyCheckS⟩

def cspellMRule : MRule := ⟨cspellRuleId, cspellCheckS⟩

def pnpmMRule : MRule := ⟨pnpmRuleId, pnpmCheckS⟩

/-- Modelled from the spec: the fixed set of built-in rules, in registration
order. -/
def ruleRegistry : List MRule :=
  [claudeMRule, huskyMRule, cspellMRule, pnpmMRule]

/-- One discovered repository together with the set of rule ids whose
execution fails unexpectedly on it. -/
structure RepoEntry where
  state : RepoState
  failing : List (List Char)

/-- The world under a root path: the discovered repositories and the
subdirectories the locator could not read. -/
structure World where
  repos : List RepoEntry
  unreadable : List (List Char)

/-- Modelled from the spec: the single synthetic error-severity finding that
replaces the findings of a rule whose execution failed, naming the rule and
the repository path. -/
def syntheticFinding (rid path : List Char) : LintResult :=
  ⟨rid, "rule-execution-failed".toList, .error,
   "Rule '".toList ++ rid ++ "' failed unexpectedly".toList, path, none, none⟩

/-- Modelled from the spec: the finding recording a PermissionError on an
unreadable subdirectory, which is skipped rather than fatal. -/
def permFinding (dir : List Char) : LintResult :=
  ⟨"repo-locator".toList, "permission-denied".toList, .warning,
   "Permission denied reading directory".toList, dir, none, none⟩

/-- Modelled from the spec: the findings of one repository under per-rule
error isolation — a failing rule contributes its synthetic finding, every
other rule contributes its checks. -/
def repoRunFindings (e : RepoEntry) : List LintResult :=
  ruleRegistry.flatMap (fun r =>
    if r.id ∈ e.failing then [syntheticFinding r.id e.state.path]
    else r.check e.state)

/-- Modelled from the spec: the whole check run over an existing root —
permission failures and every repository's findings, flattened into one
report. -/
def runWorld (w : World) : LintReport :=
  mkReport (w.unreadable.map permFinding ++ w.repos.flatMap repoRunFindings) 0

/-- The fatal error of a run: the root path does not exist. -/
inductive RunError where
  | notFound
deriving DecidableEq

/-- Modelled from the spec: a run over a root path — absence of the root is
the only fatal failure, everything else yields a report. -/
def runRoot : Option World → Except RunError LintReport
  | none => .error .notFound
  | some w => .ok (runWorld w)

/-- The exit-code mapping of the CLI (src/cli.ts): a run that throws exits
non-zero, otherwise the process exits 1 exactly when errorCount is
positive. -/
def cliExitCode (root : Option World) : Nat :=
  match runRoot root with
  | .error _ => 1
  | .ok rep => if rep.errorCount > 0 then 1 else 0

/-- The platform/arch to npm-package-name map of getPackageName in
src/native.ts (embedded from the source). -/
def platformArchMap : List (List Char × List (List Char × List Char)) :=
  [("darwin".toList,
    [("arm64".toList, "@lineup-agent/darwin-arm64".toList),
     ("x64".toList, "@lineup-agent/darwin-x64".toList)]),
   ("linux".toList,
    [("arm64".toList, "@lineup-agent/linux-arm64-gnu".toList),
     ("x64".toList, "@lineup-agent/linux-x64-gnu".toList)]),
   ("win32".toList,
    [("x64".toList, "@lineup-agent/win32-x64-msvc".toList)])]

/-- getPackageName from src/native.ts: the npm package for the platform and
architecture, or the error thrown for an unsupported combination. -/
def getPackageName (p a : List Char) : Except (List Char) (List Char) :=
  match lookupKV platformArchMap p with
  | none => .error ("Unsupported platform: ".toList ++ p)
  | some tbl =>
    match lookupKV tbl a with
    | none => .error ("Unsupported architecture: ".toList ++ a ++ " on ".toList ++ p)
    | some name => .ok name

/-- The NAPI-RS triple suffix map of getLocalBindingName in src/native.ts. -/
def suffixMap : List (List Char × List (List Char × List Char)) :=
  [("darwin".toList, [("arm64".toList, []), ("x64".toList, [])]),
   ("linux".toList, [("arm64".toList, "-gnu".toList), ("x64".toList, "-gnu".toList)]),
   ("win32".toList, [("x64".toList, "-msvc".toList)])]

/-- getLocalBindingName from src/native.ts. -/
def getLocalBindingName (p a : List Char) : List Char :=
  let suffix :=
    match lookupKV suffixMap p with
    | some tbl => (lookupKV tbl a).getD []
    | none => []
  "lineup-agent.".toList ++ p ++ "-".toList ++ a ++ suffix ++ ".node".toList

/-- The host environment loadNativeBinding runs in: the platform and
architecture reported by os, whether requiring the npm binding package
succeeds, and which local files exist. -/
structure NodeEnv where
  platform : List Char
  arch : List Char
  packageLoads : List Char → Bool
  fileExists : List Char → Bool

/-- The two local candidate paths of loadNativeBinding —
join(dirname, "..", name) and join(dirname, "..", "..", name), modelled
relative to the module directory. -/
def localBindingPaths (name : List Char) : List (List Char) :=
  ["../".toList ++ name, "../../".toList ++ name]

def joinComma : List (List Char) → List Char
  | [] => []
  | [x] => x
  | x :: rest => x ++ ", ".toList ++ joinComma rest

/-- The message of the final Error constructed in loadNativeBinding when the
npm package and both local paths failed. -/
def failedMessage (pkg : List Char) (paths : List (List Char)) (p a : List Char) : List Char :=
  "Failed to load native binding. Tried:\n  - npm package: ".toList ++ pkg
    ++ "\n  - local paths: ".toList ++ joinComma paths
    ++ "\nPlatform: ".toList ++ p ++ "-".toList ++ a

/-- The local-fallback part of loadNativeBinding, reached when requiring the
npm package threw: try each local path in order, and otherwise build the final
error — whose message template re-invokes getPackageName outside any
try/catch, so on an unsupported platform the unsupported-platform error
escapes instead of the location-listing error. -/
def loadLocalOrFail (env : NodeEnv) : Except (List Char) Unit :=
  let paths := localBindingPaths (getLocalBindingName env.platform env.arch)
  match paths.find? env.fileExists with
  | some _ => .ok ()
  | none =>
    match getPackageName env.platform env.arch with
    | .error e => .error e
    | .ok pkg => .error (failedMessage pkg paths env.platform env.arch)

/-- loadNativeBinding from src/native.ts: try the npm binding package first
(any throw, including an unsupported platform, is caught), then fall back to
the local .node files, then throw.  The exported constant native is
initialised with this value at import time. -/
def loadNativeBinding (env : NodeEnv) : Except (List Char) Unit :=
  match getPackageName env.platform env.arch with
  | .ok pkg => if env.packageLoads pkg then .ok () else loadLocalOrFail env
  | .error _ => loadLocalOrFail env

/-- Test fixture: the existing Bash hook entry of the e2e duplicate test, with
command "existing". -/
def testExistingBashEntry : Json :=
  .obj [(matcherKey, .str bashName),
        (hooksKey, .arr [.obj [(typeKey, .str "command".toList),
                               (commandKey, .str "existing".toList)]])]

/-- Test fixture: settings whose hooks already contain a Bash entry. -/
def testExistingBashSettings : List (List Char × Json) :=
  [(hooksKey, .obj [(preToolUseKey, .arr [testExistingBashEntry])])]

/-- Test fixture: settings holding only unrelated custom keys. -/
def testCustomSettings : List (List Char × Json) :=
  [("apiKey".toList, .str "test-key".toList),
   ("customSetting".toList, .obj [("nested".toList, .str "value".toList)])]

/-- Test fixture: a bare git repository with no .claude directory and no
manifest. -/
def repoNoClaude : RepoState :=
  ⟨"repo".toList, .absentDir, none, none, false, none, false⟩

/-- Test fixture: a repository whose settings already contain the Bash hook. -/
def repoExistingBash : RepoState :=
  ⟨"repo".toList, .parsed testExistingBashSettings, none, none, false, none, false⟩

/-- Test fixture: a repository whose settings hold only unrelated keys. -/
def repoCustomSettings : RepoState :=
  ⟨"repo".toList, .parsed testCustomSettings, none, none, false, none, false⟩

/-- Test fixture: a manifest whose build script uses pnpm, embedding npm only
as a substring of the longer token. -/
def pnpmManifestNeg : Manifest :=
  ⟨[("build".toList, "pnpm build".toList)], []⟩

/-- Test fixture: a manifest whose build script invokes npm standalone. -/
def pnpmManifestPos : Manifest :=
  ⟨[("build".toList, "npm run build".toList)], []⟩

def repoPnpmNeg : RepoState :=
  ⟨"repo".toList, .parsed defaultSettingsFields, some pnpmManifestNeg, none,
   true, some [cspellInvocationLine], true⟩

def repoPnpmPos : RepoState :=
  ⟨"repo".toList, .parsed defaultSettingsFields, some pnpmManifestPos, none,
   true, some [cspellInvocationLine], true⟩

/-- Test fixture: a JS repository missing its cspell configuration. -/
def cspellDemoRepo : RepoState :=
  ⟨"repo".toList, .parsed defaultSettingsFields, some ⟨[], []⟩, none, false,
   none, false⟩

def claim8Entry : RepoEntry := ⟨repoNoClaude, [huskyRuleId]⟩

def claim8World : World := ⟨[claim8Entry], ["secret-dir".toList]⟩

/-- Test fixture: an unsupported host platform with no loadable binding. -/
def envUnsupported : NodeEnv :=
  ⟨"freebsd".toList, "x64".toList, fun _ => false, fun _ => false⟩

/-- Test fixture: a supported host platform where neither the npm package nor
a local binding can be loaded. -/
def envLinuxNone : NodeEnv :=
  ⟨"linux".toList, "x64".toList, fun _ => false, fun _ => false⟩

theorem lookupKV_upsertKV_self {α : Type} (l : List (List Char × α)) (k : List Char) (v : α) :
    lookupKV (upsertKV l k v) k = some v := by
  induction l with
  | nil => simp [upsertKV, lookupKV]
  | cons hd tl ih =>
    obtain ⟨k0, v0⟩ := hd
    by_cases h : k0 = k
    · simp [upsertKV, h, lookupKV]
    · simp [upsertKV, h, lookupKV, ih]

theorem lookupKV_upsertKV_ne {α : Type} (l : List (List Char × α)) (k k' : List Char) (v : α)
    (h : k' ≠ k) : lookupKV (upsertKV l k v) k' = lookupKV l k' := by
  induction l with
  | nil => simp [upsertKV, lookupKV, Ne.symm h]
  | cons hd tl ih =>
    obtain ⟨k0, v0⟩ := hd
    by_cases h0 : k0 = k
    · subst h0
      simp [upsertKV, lookupKV, Ne.symm h]
    · simp only [upsertKV, if_neg h0, lookupKV]
      by_cases h1 : k0 = k'
      · simp [h1]
      · simp [h1, ih]

theorem isPrefixList_self_append (n t : List Char) : isPrefixList n (n ++ t) = true := by
  induction n with
  | nil => simp [isPrefixList]
  | cons c cs ih => simp [isPrefixList, ih]

theorem isSubstr_mid (n x t : List Char) : isSubstr n (x ++ n ++ t) = true := by
  induction x with
  | nil =>
    rw [List.nil_append]
    cases hn : n ++ t with
    | nil =>
      obtain ⟨hn1, hn2⟩ := List.append_eq_nil.mp hn
      subst hn1
      subst hn2
      rfl
    | cons c rest =>
      show (isPrefixList n (c :: rest) || isSubstr n rest) = true
      rw [← hn, isPrefixList_self_append]
      simp
  | cons c cs ih =>
    have ih' : isSubstr n (cs ++ (n ++ t)) = true := by
      rw [← List.append_assoc]
      exact ih
    simp [isSubstr, List.cons_append, ih']

theorem tokensCore_fst (s : List Char) : (tokensCore s).1 = s.takeWhile wordChar := by
  induction s with
  | nil => simp [tokensCore]
  | cons c rest ih =>
    by_cases h : wordChar c
    · simp [tokensCore, h, List.takeWhile_cons, ih]
    · simp [tokensCore, h, List.takeWhile_cons]

theorem tokenHere_iff (cmd : List Char) (hw : ∀ c ∈ cmd, wordChar c = true) :
    ∀ s : List Char, tokenHere cmd s = true ↔ cmd = s.takeWhile wordChar := by
  induction cmd with
  | nil =>
    intro s
    cases s with
    | nil => simp [tokenHere]
    | cons d ds =>
      by_cases hd : wordChar d
      · simp [tokenHere, hd, List.takeWhile_cons]
      · simp [tokenHere, hd, List.takeWhile_cons]
  | cons h t ih =>
    intro s
    have hwh : wordChar h = true := hw h (List.mem_cons_self h t)
    have hwt : ∀ c ∈ t, wordChar c = true := fun c hc => hw c (List.mem_cons_of_mem h hc)
    cases s with
    | nil => simp [tokenHere]
    | cons d ds =>
      by_cases hd : wordChar d
      · by_cases hhd : h = d
        · subst hhd
          simp [tokenHere, hd, List.takeWhile_cons, ih hwt ds]
        · simp [tokenHere, hhd, hd, List.takeWhile_cons, fun e => hhd e]
      · have hhd : h ≠ d := by
          intro e
          rw [e] at hwh
          exact hd hwh
        simp [tokenHere, hhd, hd, List.takeWhile_cons]

theorem scanTok_iff (cmd : List Char) (hne : cmd ≠ []) (hw : ∀ c ∈ cmd, wordChar c = true) :
    ∀ s : List Char,
      (scanTok cmd true s = true ↔ cmd ∈ tokens s) ∧
      (scanTok cmd false s = true ↔ cmd ∈ (tokensCore s).2) := by
  intro s
  induction s with
  | nil =>
    obtain ⟨h0, t0, rfl⟩ := List.exists_cons_of_ne_nil hne
    constructor
    · simp [scanTok, tokens, tokensCore, tokenHere]
    · simp [scanTok, tokensCore]
  | cons c rest ih =>
    obtain ⟨ihA, ihB⟩ := ih
    by_cases hc : wordChar c
    · have hhead : tokenHere cmd (c :: rest) = true ↔ cmd = c :: (tokensCore rest).1 := by
        rw [tokenHere_iff cmd hw (c :: rest), tokensCore_fst, List.takeWhile_cons, if_pos hc]
      constructor
      · rw [show scanTok cmd true (c :: rest)
              = (tokenHere cmd (c :: rest) || scanTok cmd false rest) by simp [scanTok, hc]]
        rw [show tokens (c :: rest) = (c :: (tokensCore rest).1) :: (tokensCore rest).2 by
              simp [tokens, tokensCore, hc]]
        simp only [Bool.or_eq_true, hhead, ihB, List.mem_cons]
      · rw [show scanTok cmd false (c :: rest) = scanTok cmd false rest by simp [scanTok, hc]]
        rw [show (tokensCore (c :: rest)).2 = (tokensCore rest).2 by simp [tokensCore, hc]]
        exact ihB
    · have hhead : tokenHere cmd (c :: rest) = false := by
        obtain ⟨h0, t0, rfl⟩ := List.exists_cons_of_ne_nil hne
        have hwh : wordChar h0 = true := hw h0 (List.mem_cons_self h0 t0)
        have : h0 ≠ c := by
          intro e
          rw [e] at hwh
          exact hc hwh
        simp [tokenHere, this]
      have htail : (tokensCore (c :: rest)).2 = tokens rest := by
        simp only [tokensCore, tokens]
        by_cases he : (tokensCore rest).1.isEmpty
        · simp [hc, he]
        · simp [hc, he]
      have hmain : tokens (c :: rest) = tokens rest := by
        have h1 : (tokensCore (c :: rest)).1 = [] := by simp [tokensCore, hc]
        rw [show tokens (c :: rest)
              = (if (tokensCore (c :: rest)).1.isEmpty then (tokensCore (c :: rest)).2
                 else (tokensCore (c :: rest)).1 :: (tokensCore (c :: rest)).2) from rfl]
        rw [h1, htail]
        simp
      constructor
      · rw [show scanTok cmd true (c :: rest)
              = (tokenHere cmd (c :: rest) || scanTok cmd true rest) by simp [scanTok, hc]]
        rw [hmain]
        simp only [hhead, Bool.false_or]
        exact ihA
      · rw [show scanTok cmd false (c :: rest) = scanTok cmd true rest by simp [scanTok, hc]]
        rw [htail]
        exact ihA

theorem contains_standalone_iff_token (s cmd : List Char) (hne : cmd ≠ [])
    (hw : ∀ c ∈ cmd, wordChar c = true) :
    contains_standalone_command s cmd = true ↔ cmd ∈ tokens s :=
  (scanTok_iff cmd hne hw s).1

theorem isBashEntry_default : isBashEntry defaultBashEntry = true := by decide

theorem settingsHasBash_default : settingsHasBash defaultSettingsFields = true := by decide

theorem hooksObj_upsert (fields : List (List Char × Json)) (hf : List (List Char × Json)) :
    hooksObj (upsertKV fields hooksKey (.obj hf)) = some hf := by
  simp [hooksObj, lookupKV_upsertKV_self]

theorem preToolUseList_upsert (hf : List (List Char × Json)) (entries : List Json) :
    preToolUseList (upsertKV hf preToolUseKey (.arr entries)) = some entries := by
  simp [preToolUseList, lookupKV_upsertKV_self]

theorem settingsHasBash_merge (fields : List (List Char × Json)) :
    settingsHasBash (mergeBashHook fields) = true := by
  simp [settingsHasBash, mergeBashHook, mergedHooksFields, hooksObj_upsert,
    preToolUseList_upsert, List.any_append, isBashEntry_default]

theorem mergeBashHook_preserves (fields : List (List Char × Json)) (k : List Char)
    (h : k ≠ hooksKey) : lookupKV (mergeBashHook fields) k = lookupKV fields k :=
  lookupKV_upsertKV_ne _ _ _ _ h

theorem claudeCheck_parsed_nil_iff (path : List Char) (fields : List (List Char × Json)) :
    claudeCheckFile path (.parsed fields) = [] ↔ settingsHasBash fields = true := by
  simp only [claudeCheckFile, settingsHasBash]
  cases h1 : hooksObj fields with
  | none => simp [h1]
  | some hf =>
    cases h2 : preToolUseList hf with
    | none => simp [h1, h2]
    | some entries =>
      by_cases hb : entries.any isBashEntry
      · simp [h1, h2, hb]
      · simp [h1, h2, hb]

theorem claudeFixFile_parsed_fst (fields : List (List Char × Json)) :
    (claudeFixFile (.parsed fields)).1 = .parsed (fixedSettingsFields fields) := by
  by_cases hb : settingsHasBash fields
  · simp [claudeFixFile, fixedSettingsFields, hb]
  · simp [claudeFixFile, fixedSettingsFields, hb]

theorem settingsHasBash_fixed (fields : List (List Char × Json)) :
    settingsHasBash (fixedSettingsFields fields) = true := by
  by_cases hb : settingsHasBash fields
  · simp [fixedSettingsFields, hb]
  · simp [fixedSettingsFields, hb, settingsHasBash_merge]

theorem claudeFixFile_idem (st : SettingsState) :
    claudeFixFile (claudeFixFile st).1 = ((claudeFixFile st).1, 0) := by
  cases st with
  | absentDir => simp [claudeFixFile, settingsHasBash_default]
  | absentFile => simp [claudeFixFile, settingsHasBash_default]
  | invalid => rfl
  | parsed fields =>
    by_cases hb : settingsHasBash fields
    · simp [claudeFixFile, hb]
    · simp [claudeFixFile, hb, settingsHasBash_merge]

theorem countP_severity_partition (rs : List LintResult) :
    rs.countP (fun f => f.severity == Severity.error)
      + rs.countP (fun f => f.severity == Severity.warning)
      + rs.countP (fun f => f.severity == Severity.info) = rs.length := by
  induction rs with
  | nil => simp
  | cons f tl ih =>
    cases hs : f.severity <;> simp [List.countP_cons, hs] <;> omega

theorem cl_claude (s : RepoState) : (claudeFixS s).1.claude = (claudeFixFile s.claude).1 := rfl

theorem cl_path (s : RepoState) : (claudeFixS s).1.path = s.path := rfl

theorem cl_manifest (s : RepoState) : (claudeFixS s).1.manifest = s.manifest := rfl

theorem cl_cargo (s : RepoState) : (claudeFixS s).1.cargo = s.cargo := rfl

theorem cl_huskyDir (s : RepoState) : (claudeFixS s).1.huskyDir = s.huskyDir := rfl

theorem cl_hookScript (s : RepoState) : (claudeFixS s).1.hookScript = s.hookScript := rfl

theorem cl_cspellConfig (s : RepoState) : (claudeFixS s).1.cspellConfig = s.cspellConfig := rfl

theorem hfd_claude (s : RepoState) : (huskyFixDir s).1.claude = s.claude := by
  unfold huskyFixDir
  split <;> rfl

theorem hfd_path (s : RepoState) : (huskyFixDir s).1.path = s.path := by
  unfold huskyFixDir
  split <;> rfl

theorem hfd_manifest (s : RepoState) : (huskyFixDir s).1.manifest = s.manifest := by
  unfold huskyFixDir
  split <;> rfl

theorem hfd_cargo (s : RepoState) : (huskyFixDir s).1.cargo = s.cargo := by
  unfold huskyFixDir
  split <;> rfl

theorem hfd_cspellConfig (s : RepoState) : (huskyFixDir s).1.cspellConfig = s.cspellConfig := by
  unfold huskyFixDir
  split <;> rfl

theorem hfd_huskyDir (s : RepoState) :
    (huskyFixDir s).1.huskyDir = (s.manifest.isSome || s.huskyDir) := by
  unfold huskyFixDir
  cases hm : s.manifest.isSome <;> cases hh : s.huskyDir <;> simp [hm, hh]

theorem hfp_claude (s : RepoState) : (huskyFixPrepare s).1.claude = s.claude := by
  unfold huskyFixPrepare
  split
  · split <;> rfl
  · rfl

theorem hfp_path (s : RepoState) : (huskyFixPrepare s).1.path = s.path := by
  unfold huskyFixPrepare
  split
  · split <;> rfl
  · rfl

theorem hfp_cargo (s : RepoState) : (huskyFixPrepare s).1.cargo = s.cargo := by
  unfold huskyFixPrepare
  split
  · split <;> rfl
  · rfl

theorem hfp_huskyDir (s : RepoState) : (huskyFixPrepare s).1.huskyDir = s.huskyDir := by
  unfold huskyFixPrepare
  split
  · split <;> rfl
  · rfl

theorem hfp_hookScript (s : RepoState) : (huskyFixPrepare s).1.hookScript = s.hookScript := by
  unfold huskyFixPrepare
  split
  · split <;> rfl
  · rfl

theorem hfp_cspellConfig (s : RepoState) :
    (huskyFixPrepare s).1.cspellConfig = s.cspellConfig := by
  unfold huskyFixPrepare
  split
  · split <;> rfl
  · rfl

theorem hfp_isSome (s : RepoState) :
    (huskyFixPrepare s).1.manifest.isSome = s.manifest.isSome := by
  unfold huskyFixPrepare
  split
  · rename_i m heq
    split
    · rfl
    · simp [heq]
  · rfl

theorem hfp_prepare (s : RepoState) (m' : Manifest)
    (h : (huskyFixPrepare s).1.manifest = some m') :
    (lookupKV m'.scripts prepareKey).isSome = true := by
  unfold huskyFixPrepare at h
  split at h
  · rename_i m heq
    split at h
    · rename_i hcond
      simp at h
      rw [heq] at h
      injection h with h
      rw [← h]
      exact hcond
    · simp at h
      rw [← h]
      simp [lookupKV_upsertKV_self]
  · rename_i heq
    simp at h
    rw [heq] at h
    simp at h

theorem hfc_claude (s : RepoState) : (huskyFixCargo s).1.claude = s.claude := by
  unfold huskyFixCargo
  split
  · split <;> rfl
  · rfl

theorem hfc_path (s : RepoState) : (huskyFixCargo s).1.path = s.path := by
  unfold huskyFixCargo
  split
  · split <;> rfl
  · rfl

theorem hfc_manifest (s : RepoState) : (huskyFixCargo s).1.manifest = s.manifest := by
  unfold huskyFixCargo
  split
  · split <;> rfl
  · rfl

theorem hfc_huskyDir (s : RepoState) : (huskyFixCargo s).1.huskyDir = s.huskyDir := by
  unfold huskyFixCargo
  split
  · split <;> rfl
  · rfl

theorem hfc_hookScript (s : RepoState) : (huskyFixCargo s).1.hookScript = s.hookScript := by
  unfold huskyFixCargo
  split
  · split <;> rfl
  · rfl

theorem hfc_cspellConfig (s : RepoState) :
    (huskyFixCargo s).1.cspellConfig = s.cspellConfig := by
  unfold huskyFixCargo
  split
  · split <;> rfl
  · rfl

theorem hfc_cargo_mem (s : RepoState) (c' : CargoManifest)
    (h : (huskyFixCargo s).1.cargo = some c') : huskyRsName ∈ c'.devDeps := by
  unfold huskyFixCargo at h
  split at h
  · rename_i c heq
    split at h
    · rename_i hcond
      simp at h
      rw [heq] at h
      injection h with h
      rw [← h]
      exact hcond
    · simp at h
      rw [← h]
      simp
  · rename_i heq
    simp at h
    rw [heq] at h
    simp at h

theorem cfc_claude (s : RepoState) : (cspellFixConfig s).1.claude = s.claude := by
  unfold cspellFixConfig
  split <;> rfl

theorem cfc_path (s : RepoState) : (cspellFixConfig s).1.path = s.path := by
  unfold cspellFixConfig
  split <;> rfl

theorem cfc_manifest (s : RepoState) : (cspellFixConfig s).1.manifest = s.manifest := by
  unfold cspellFixConfig
  split <;> rfl

theorem cfc_cargo (s : RepoState) : (cspellFixConfig s).1.cargo = s.cargo := by
  unfold cspellFixConfig
  split <;> rfl

theorem cfc_huskyDir (s : RepoState) : (cspellFixConfig s).1.huskyDir = s.huskyDir := by
  unfold cspellFixConfig
  split <;> rfl

theorem cfc_hookScript (s : RepoState) : (cspellFixConfig s).1.hookScript = s.hookScript := by
  unfold cspellFixConfig
  split <;> rfl

theorem cfc_cspellConfig (s : RepoState) :
    (cspellFixConfig s).1.cspellConfig = (s.manifest.isSome || s.cspellConfig) := by
  unfold cspellFixConfig
  cases hm : s.manifest.isSome <;> cases hcf : s.cspellConfig <;> simp [hm, hcf]

theorem cfd_claude (s : RepoState) : (cspellFixDep s).1.claude = s.claude := by
  unfold cspellFixDep
  split
  · split <;> rfl
  · rfl

theorem cfd_path (s : RepoState) : (cspellFixDep s).1.path = s.path := by
  unfold cspellFixDep
  split
  · split <;> rfl
  · rfl

theorem cfd_cargo (s : RepoState) : (cspellFixDep s).1.cargo = s.cargo := by
  unfold cspellFixDep
  split
  · split <;> rfl
  · rfl

theorem cfd_huskyDir (s : RepoState) : (cspellFixDep s).1.huskyDir = s.huskyDir := by
  unfold cspellFixDep
  split
  · split <;> rfl
  · rfl

theorem cfd_hookScript (s : RepoState) : (cspellFixDep s).1.hookScript = s.hookScript := by
  unfold cspellFixDep
  split
  · split <;> rfl
  · rfl

theorem cfd_cspellConfig (s : RepoState) :
    (cspellFixDep s).1.cspellConfig = s.cspellConfig := by
  unfold cspellFixDep
  split
  · split <;> rfl
  · rfl

theorem cfd_scripts (s : RepoState) :
    (cspellFixDep s).1.manifest.map Manifest.scripts = s.manifest.map Manifest.scripts := by
  unfold cspellFixDep
  split
  · rename_i m heq
    split
    · rfl
    · simp [heq]
  · rfl

theorem cfd_isSome (s : RepoState) :
    (cspellFixDep s).1.manifest.isSome = s.manifest.isSome := by
  unfold cspellFixDep
  split
  · rename_i m heq
    split
    · rfl
    · simp [heq]
  · rfl

theorem cfd_mem (s : RepoState) (m' : Manifest)
    (h : (cspellFixDep s).1.manifest = some m') : cspellName ∈ m'.devDeps := by
  unfold cspellFixDep at h
  split at h
  · rename_i m heq
    split at h
    · rename_i hcond
      simp at h
      rw [heq] at h
      injection h with h
      rw [← h]
      exact hcond
    · simp at h
      rw [← h]
      simp
  · rename_i heq
    simp at h
    rw [heq] at h
    simp at h

theorem cfh_claude (s : RepoState) : (cspellFixHook s).1.claude = s.claude := by
  unfold cspellFixHook
  split
  · rfl
  · split
    · split <;> rfl
    · rfl

theorem cfh_path (s : RepoState) : (cspellFixHook s).1.path = s.path := by
  unfold cspellFixHook
  split
  · rfl
  · split
    · split <;> rfl
    · rfl

theorem cfh_manifest (s : RepoState) : (cspellFixHook s).1.manifest = s.manifest := by
  unfold cspellFixHook
  split
  · rfl
  · split
    · split <;> rfl
    · rfl

theorem cfh_cargo (s : RepoState) : (cspellFixHook s).1.cargo = s.cargo := by
  unfold cspellFixHook
  split
  · rfl
  · split
    · split <;> rfl
    · rfl

theorem cfh_huskyDir (s : RepoState) : (cspellFixHook s).1.huskyDir = s.huskyDir := by
  unfold cspellFixHook
  split
  · rfl
  · split
    · split <;> rfl
    · rfl

theorem cfh_cspellConfig (s : RepoState) :
    (cspellFixHook s).1.cspellConfig = s.cspellConfig := by
  unfold cspellFixHook
  split
  · rfl
  · split
    · split <;> rfl
    · rfl

theorem hookHasCspell_append_inv (lines : List (List Char)) :
    hookHasCspell (lines ++ [cspellInvocationLine]) = true := by
  have h : contains_standalone_command cspellInvocationLine cspellName = true := by decide
  simp [hookHasCspell, List.any_append, h]

theorem cfh_hook (s : RepoState) (hm : s.manifest.isSome = true) (lines : List (List Char))
    (h : (cspellFixHook s).1.hookScript = some lines) : hookHasCspell lines = true := by
  unfold cspellFixHook at h
  split at h
  · rename_i heq
    rw [heq] at hm
    simp at hm
  · split at h
    · rename_i l0 heq2
      split at h
      · rename_i hcond
        simp at h
        rw [heq2] at h
        injection h with h
        rw [← h]
        exact hcond
      · simp at h
        rw [← h]
        exact hookHasCspell_append_inv l0
    · rename_i heq2
      simp at h
      rw [heq2] at h
      simp at h

theorem hfS_state (s : RepoState) :
    (huskyFixS s).1 = (huskyFixCargo (huskyFixPrepare (huskyFixDir s).1).1).1 := rfl

theorem hfS_claude (s : RepoState) : (huskyFixS s).1.claude = s.claude := by
  rw [hfS_state, hfc_claude, hfp_claude, hfd_claude]

theorem hfS_path (s : RepoState) : (huskyFixS s).1.path = s.path := by
  rw [hfS_state, hfc_path, hfp_path, hfd_path]

theorem hfS_cspellConfig (s : RepoState) :
    (huskyFixS s).1.cspellConfig = s.cspellConfig := by
  rw [hfS_state, hfc_cspellConfig, hfp_cspellConfig, hfd_cspellConfig]

theorem hfS_isSome (s : RepoState) :
    (huskyFixS s).1.manifest.isSome = s.manifest.isSome := by
  rw [hfS_state, hfc_manifest, hfp_isSome, hfd_manifest]

theorem hfS_huskyDir (s : RepoState) :
    (huskyFixS s).1.huskyDir = (s.manifest.isSome || s.huskyDir) := by
  rw [hfS_state, hfc_huskyDir, hfp_huskyDir, hfd_huskyDir]

theorem hfS_prepare (s : RepoState) (m' : Manifest)
    (h : (huskyFixS s).1.manifest = some m') :
    (lookupKV m'.scripts prepareKey).isSome = true := by
  rw [hfS_state, hfc_manifest] at h
  exact hfp_prepare _ _ h

theorem hfS_cargo_mem (s : RepoState) (c' : CargoManifest)
    (h : (huskyFixS s).1.cargo = some c') : huskyRsName ∈ c'.devDeps := by
  rw [hfS_state] at h
  exact hfc_cargo_mem _ _ h

theorem cfS_state (s : RepoState) :
    (cspellFixS s).1 = (cspellFixHook (cspellFixDep (cspellFixConfig s).1).1).1 := rfl

theorem cfS_claude (s : RepoState) : (cspellFixS s).1.claude = s.claude := by
  rw [cfS_state, cfh_claude, cfd_claude, cfc_claude]

theorem cfS_path (s : RepoState) : (cspellFixS s).1.path = s.path := by
  rw [cfS_state, cfh_path, cfd_path, cfc_path]

theorem cfS_huskyDir (s : RepoState) : (cspellFixS s).1.huskyDir = s.huskyDir := by
  rw [cfS_state, cfh_huskyDir, cfd_huskyDir, cfc_huskyDir]

theorem cfS_cargo (s : RepoState) : (cspellFixS s).1.cargo = s.cargo := by
  rw [cfS_state, cfh_cargo, cfd_cargo, cfc_cargo]

theorem cfS_scripts (s : RepoState) :
    (cspellFixS s).1.manifest.map Manifest.scripts = s.manifest.map Manifest.scripts := by
  rw [cfS_state, cfh_manifest, cfd_scripts, cfc_manifest]

theorem cfS_isSome (s : RepoState) :
    (cspellFixS s).1.manifest.isSome = s.manifest.isSome := by
  rw [cfS_state, cfh_manifest, cfd_isSome, cfc_manifest]

theorem cfS_cspellConfig (s : RepoState) :
    (cspellFixS s).1.cspellConfig = (s.manifest.isSome || s.cspellConfig) := by
  rw [cfS_state, cfh_cspellConfig, cfd_cspellConfig, cfc_cspellConfig]

theorem cfS_mem (s : RepoState) (m' : Manifest)
    (h : (cspellFixS s).1.manifest = some m') : cspellName ∈ m'.devDeps := by
  rw [cfS_state, cfh_manifest] at h
  exact cfd_mem _ _ h

theorem cfS_hook (s : RepoState) (hm : (cspellFixS s).1.manifest.isSome = true)
    (lines : List (List Char)) (h : (cspellFixS s).1.hookScript = some lines) :
    hookHasCspell lines = true := by
  rw [cfS_state] at h
  rw [cfS_state, cfh_manifest] at hm
  exact cfh_hook _ hm _ h

theorem afterClaude_claude (s : RepoState) :
    (afterClaude s).claude = (claudeFixFile s.claude).1 := rfl

theorem afterCspell_claude (s : RepoState) :
    (afterCspell s).claude = (claudeFixFile s.claude).1 := by
  unfold afterCspell afterHusky
  rw [cfS_claude, hfS_claude, afterClaude_claude]

theorem afterCspell_path (s : RepoState) : (afterCspell s).path = s.path := by
  unfold afterCspell afterHusky afterClaude
  rw [cfS_path, hfS_path, cl_path]

theorem afterCspell_isSome (s : RepoState) :
    (afterCspell s).manifest.isSome = s.manifest.isSome := by
  unfold afterCspell afterHusky afterClaude
  rw [cfS_isSome, hfS_isSome, cl_manifest]

theorem afterCspell_huskyDir (s : RepoState) :
    (afterCspell s).huskyDir = ((afterClaude s).manifest.isSome || (afterClaude s).huskyDir) := by
  unfold afterCspell afterHusky
  rw [cfS_huskyDir, hfS_huskyDir]

theorem claudeFixS_noop (s : RepoState) (h : claudeFixFile s.claude = (s.claude, 0)) :
    claudeFixS s = (s, 0) := by
  unfold claudeFixS
  rw [h]

theorem huskyFixDir_noop (s : RepoState) (h : s.manifest.isSome = true → s.huskyDir = true) :
    huskyFixDir s = (s, 0) := by
  unfold huskyFixDir
  cases h1 : s.manifest.isSome with
  | false => simp
  | true => simp [h h1]

theorem huskyFixPrepare_noop (s : RepoState)
    (h : ∀ m, s.manifest = some m → (lookupKV m.scripts prepareKey).isSome = true) :
    huskyFixPrepare s = (s, 0) := by
  unfold huskyFixPrepare
  cases hm : s.manifest with
  | none => rfl
  | some m => simp [h m hm]

theorem huskyFixCargo_noop (s : RepoState)
    (h : ∀ c, s.cargo = some c → huskyRsName ∈ c.devDeps) :
    huskyFixCargo s = (s, 0) := by
  unfold huskyFixCargo
  cases hc : s.cargo with
  | none => rfl
  | some c => simp [h c hc]

theorem huskyFixS_noop (s : RepoState) (h1 : s.manifest.isSome = true → s.huskyDir = true)
    (h2 : ∀ m, s.manifest = some m → (lookupKV m.scripts prepareKey).isSome = true)
    (h3 : ∀ c, s.cargo = some c → huskyRsName ∈ c.devDeps) :
    huskyFixS s = (s, 0) := by
  unfold huskyFixS
  rw [huskyFixDir_noop s h1]
  rw [show ((s, 0) : RepoState × Nat).1 = s from rfl]
  rw [huskyFixPrepare_noop s h2]
  rw [show ((s, 0) : RepoState × Nat).1 = s from rfl]
  rw [huskyFixCargo_noop s h3]
  simp

theorem cspellFixConfig_noop (s : RepoState)
    (h : s.manifest.isSome = true → s.cspellConfig = true) : cspellFixConfig s = (s, 0) := by
  unfold cspellFixConfig
  cases h1 : s.manifest.isSome with
  | false => simp
  | true => simp [h h1]

theorem cspellFixDep_noop (s : RepoState)
    (h : ∀ m, s.manifest = some m → cspellName ∈ m.devDeps) : cspellFixDep s = (s, 0) := by
  unfold cspellFixDep
  cases hm : s.manifest with
  | none => rfl
  | some m => simp [h m hm]

theorem cspellFixHook_noop (s : RepoState)
    (h : s.manifest.isSome = true → ∀ lines, s.hookScript = some lines → hookHasCspell lines = true) :
    cspellFixHook s = (s, 0) := by
  unfold cspellFixHook
  cases hm : s.manifest with
  | none => rfl
  | some m =>
    cases hh : s.hookScript with
    | none => rfl
    | some lines =>
      have hmem : s.manifest.isSome = true := by rw [hm]; rfl
      simp [h hmem lines hh]

theorem cspellFixS_noop (s : RepoState) (h1 : s.manifest.isSome = true → s.cspellConfig = true)
    (h2 : ∀ m, s.manifest = some m → cspellName ∈ m.devDeps)
    (h3 : s.manifest.isSome = true → ∀ lines, s.hookScript = some lines → hookHasCspell lines = true) :
    cspellFixS s = (s, 0) := by
  unfold cspellFixS
  rw [cspellFixConfig_noop s h1]
  rw [show ((s, 0) : RepoState × Nat).1 = s from rfl]
  rw [cspellFixDep_noop s h2]
  rw [show ((s, 0) : RepoState × Nat).1 = s from rfl]
  rw [cspellFixHook_noop s h3]
  simp

theorem huskyCheckS_congr (z1 z2 : RepoState) (hp : z1.path = z2.path)
    (hh : z1.huskyDir = z2.huskyDir) (hc : z1.cargo = z2.cargo)
    (hm : z1.manifest.map Manifest.scripts = z2.manifest.map Manifest.scripts) :
    huskyCheckS z1 = huskyCheckS z2 := by
  unfold huskyCheckS
  rw [hp, hh, hc]
  congr 1
  cases h1 : z1.manifest with
  | none =>
    cases h2 : z2.manifest with
    | none => rfl
    | some m2 =>
      rw [h1, h2] at hm
      simp at hm
  | some m1 =>
    cases h2 : z2.manifest with
    | none =>
      rw [h1, h2] at hm
      simp at hm
    | some m2 =>
      rw [h1, h2] at hm
      simp at hm
      simp [hm]

theorem stable_claude (s : RepoState) :
    claudeFixS (afterCspell s) = (afterCspell s, 0) := by
  apply claudeFixS_noop
  rw [afterCspell_claude]
  exact claudeFixFile_idem s.claude

theorem stable_husky (s : RepoState) :
    huskyFixS (afterCspell s) = (afterCspell s, 0) := by
  apply huskyFixS_noop
  · intro hm
    rw [afterCspell_huskyDir]
    have hds : (afterClaude s).manifest.isSome = true := by
      rw [show (afterClaude s).manifest = s.manifest from cl_manifest s]
      rw [← afterCspell_isSome s]
      exact hm
    rw [hds]
    simp
  · intro m hmm
    have hmap : (afterHusky s).manifest.map Manifest.scripts = some m.scripts := by
      rw [← cfS_scripts (afterHusky s)]
      rw [show (cspellFixS (afterHusky s)).1 = afterCspell s from rfl, hmm]
      rfl
    obtain ⟨mb, hmb, hsc⟩ := Option.map_eq_some'.mp hmap
    have hpre := hfS_prepare (afterClaude s) mb (by
      rw [show (huskyFixS (afterClaude s)).1 = afterHusky s from rfl]
      exact hmb)
    rw [← hsc]
    exact hpre
  · intro c hcc
    have hbc : (afterHusky s).cargo = some c := by
      rw [← cfS_cargo (afterHusky s)]
      exact hcc
    exact hfS_cargo_mem (afterClaude s) c hbc

theorem stable_cspell (s : RepoState) :
    cspellFixS (afterCspell s) = (afterCspell s, 0) := by
  apply cspellFixS_noop
  · intro hm
    rw [show (afterCspell s).cspellConfig
          = ((afterHusky s).manifest.isSome || (afterHusky s).cspellConfig)
        from cfS_cspellConfig (afterHusky s)]
    have hbs : (afterHusky s).manifest.isSome = true := by
      rw [← cfS_isSome (afterHusky s)]
      exact hm
    rw [hbs]
    simp
  · intro m hmm
    exact cfS_mem (afterHusky s) m hmm
  · intro hm lines hl
    exact cfS_hook (afterHusky s) hm lines hl

theorem afterClaude_stable (s : RepoState) :
    afterClaude (afterCspell s) = afterCspell s := by
  unfold afterClaude
  rw [stable_claude]

theorem afterHusky_stable (s : RepoState) :
    afterHusky (afterCspell s) = afterCspell s := by
  unfold afterHusky
  rw [afterClaude_stable, stable_husky]

theorem afterCspell_stable (s : RepoState) :
    afterCspell (afterCspell s) = afterCspell s := by
  rw [show afterCspell (afterCspell s) = (cspellFixS (afterHusky (afterCspell s))).1 from rfl]
  rw [afterHusky_stable, stable_cspell]

theorem claudeCheck_second_run (s : RepoState) :
    claudeCheckS (afterCspell s) = claudeCheckS (afterClaude s) := by
  unfold claudeCheckS
  rw [afterCspell_path, afterCspell_claude]
  rw [show (afterClaude s).path = s.path from cl_path s, afterClaude_claude]

theorem huskyCheck_second_run (s : RepoState) :
    huskyCheckS (afterCspell s) = huskyCheckS (afterHusky s) :=
  huskyCheckS_congr (afterCspell s) (afterHusky s) (cfS_path (afterHusky s))
    (cfS_huskyDir (afterHusky s)) (cfS_cargo (afterHusky s)) (cfS_scripts (afterHusky s))

/-- C1: Fix idempotence — for every repository state, running the fix
operation twice in succession yields fixedCount 0 on the second run, the
second run's residual findings are identical to the first run's, and the
repository state is unchanged by the second run. -/
theorem claim1_fix_idempotence (s : RepoState) :
    (engineFix (engineFix s).1).2.fixedCount = 0 ∧
    (engineFix (engineFix s).1).2.results = (engineFix s).2.results ∧
    (engineFix (engineFix s).1).1 = (engineFix s).1 := by
  refine ⟨?_, ?_, ?_⟩
  · show engineFixedCount (afterCspell s) = 0
    unfold engineFixedCount
    rw [stable_claude, afterClaude_stable, stable_husky, afterHusky_stable, stable_cspell]
    rfl
  · show engineResiduals (afterCspell s) = engineResiduals s
    unfold engineResiduals
    rw [afterClaude_stable, afterHusky_stable, afterCspell_stable]
    rw [claudeCheck_second_run, huskyCheck_second_run]
  · show afterCspell (afterCspell s) = afterCspell s
    exact afterCspell_stable s

theorem claudeCheckFile_ruleId (p : List Char) (st : SettingsState) :
    ∀ f ∈ claudeCheckFile p st, f.ruleId = claudeRuleId := by
  intro f hf
  cases st with
  | absentDir =>
    simp [claudeCheckFile, missingClaudeDirFinding] at hf
    rw [hf]
  | absentFile =>
    simp [claudeCheckFile] at hf
    rw [hf]
  | invalid =>
    simp [claudeCheckFile] at hf
    rw [hf]
  | parsed fields =>
    simp only [claudeCheckFile] at hf
    split at hf
    · split at hf
      · split at hf
        · simp at hf
        · simp at hf
          rw [hf]
      · simp at hf
        rw [hf]
    · simp at hf
      rw [hf]

theorem huskyCheckS_ruleId (z : RepoState) : ∀ f ∈ huskyCheckS z, f.ruleId = huskyRuleId := by
  intro f hf
  unfold huskyCheckS at hf
  rcases List.mem_append.mp hf with h | h
  · split at h
    · rcases List.mem_append.mp h with h1 | h1
      · split at h1
        · simp at h1
        · simp at h1
          rw [h1]
      · split at h1
        · simp at h1
        · simp at h1
          rw [h1]
    · simp at h
  · split at h
    · split at h
      · simp at h
      · simp at h
        rw [h]
    · simp at h

theorem cspellCheckS_ruleId (z : RepoState) : ∀ f ∈ cspellCheckS z, f.ruleId = cspellRuleId := by
  intro f hf
  unfold cspellCheckS at hf
  split at hf
  · simp at hf
  · rcases List.mem_append.mp hf with h | h
    · rcases List.mem_append.mp h with h1 | h1
      · split at h1
        · simp at h1
        · simp at h1
          rw [h1]
      · split at h1
        · simp at h1
        · simp at h1
          rw [h1]
    · split at h
      · split at h
        · simp at h
        · simp at h
          rw [h]
      · simp at h
        rw [h]

theorem pnpmCheckS_ruleId (z : RepoState) : ∀ f ∈ pnpmCheckS z, f.ruleId = pnpmRuleId := by
  intro f hf
  unfold pnpmCheckS at hf
  split at hf
  · simp at hf
  · obtain ⟨p, hp, hg⟩ := List.mem_filterMap.mp hf
    split at hg
    · injection hg with hg
      rw [← hg]
    · cases hg

theorem filter_ruleId_nil (l : List LintResult) (rid rid' : List Char)
    (hall : ∀ f ∈ l, f.ruleId = rid') (hne : (rid' == rid) = false) :
    l.filter (fun f => f.ruleId == rid) = [] := by
  rw [List.filter_eq_nil_iff]
  intro f hf
  rw [hall f hf, hne]
  simp

theorem filter_claude_self (l : List LintResult)
    (hall : ∀ f ∈ l, f.ruleId = claudeRuleId) :
    l.filter (fun f => f.ruleId == claudeRuleId) = l := by
  rw [List.filter_eq_self]
  intro f hf
  rw [hall f hf]
  simp

theorem engineChecks_filter_claude (z : RepoState) :
    (engineChecks z).filter (fun f => f.ruleId == claudeRuleId) = claudeCheckS z := by
  unfold engineChecks
  rw [List.filter_append, List.filter_append, List.filter_append]
  rw [filter_ruleId_nil _ _ _ (huskyCheckS_ruleId z) (by decide),
      filter_ruleId_nil _ _ _ (cspellCheckS_ruleId z) (by decide),
      filter_ruleId_nil _ _ _ (pnpmCheckS_ruleId z) (by decide),
      filter_claude_self (claudeCheckS z) (claudeCheckFile_ruleId z.path z.claude)]
  simp

/-- C2: Non-destructive merge — fixing a settings file that already holds
unrelated keys preserves every key other than hooks with its value unchanged,
and afterwards the required Bash hook entry is present. -/
theorem claim2_nondestructive_merge (s : RepoState) (fields : List (List Char × Json))
    (k : List Char) (h1 : s.claude = SettingsState.parsed fields) (hk : k ≠ hooksKey) :
    (engineFix s).1.claude = SettingsState.parsed (fixedSettingsFields fields) ∧
    lookupKV (fixedSettingsFields fields) k = lookupKV fields k ∧
    settingsHasBash (fixedSettingsFields fields) = true := by
  refine ⟨?_, ?_, settingsHasBash_fixed fields⟩
  · show (afterCspell s).claude = _
    rw [afterCspell_claude, h1, claudeFixFile_parsed_fst]
  · unfold fixedSettingsFields
    by_cases hb : settingsHasBash fields
    · simp [hb]
    · simp [hb, mergeBashHook_preserves fields k hk]

theorem claim2_witness :
    (engineFix repoCustomSettings).1.claude
        = SettingsState.parsed (fixedSettingsFields testCustomSettings) ∧
    lookupKV (fixedSettingsFields testCustomSettings) "apiKey".toList
        = lookupKV testCustomSettings "apiKey".toList ∧
    settingsHasBash (fixedSettingsFields testCustomSettings) = true :=
  claim2_nondestructive_merge repoCustomSettings testCustomSettings "apiKey".toList rfl
    (by decide)

/-- C3: No duplication — fixing settings whose hooks already contain an entry
matching the Bash matcher changes nothing: the stored settings are unchanged
byte for byte and the claude facet reports zero fixes. -/
theorem claim3_no_duplication (s : RepoState) (fields : List (List Char × Json))
    (h1 : s.claude = SettingsState.parsed fields) (h2 : settingsHasBash fields = true) :
    (engineFix s).1.claude = SettingsState.parsed fields ∧
    (claudeFixS s).2 = 0 ∧
    claudeFixFile (SettingsState.parsed fields) = (SettingsState.parsed fields, 0) := by
  have hf : claudeFixFile (SettingsState.parsed fields) = (SettingsState.parsed fields, 0) := by
    simp [claudeFixFile, h2]
  refine ⟨?_, ?_, hf⟩
  · show (afterCspell s).claude = _
    rw [afterCspell_claude, h1, hf]
  · show (claudeFixFile s.claude).2 = 0
    rw [h1, hf]

theorem claim3_witness :
    (engineFix repoExistingBash).1.claude = SettingsState.parsed testExistingBashSettings ∧
    (claudeFixS repoExistingBash).2 = 0 ∧
    claudeFixFile (SettingsState.parsed testExistingBashSettings)
        = (SettingsState.parsed testExistingBashSettings, 0) :=
  claim3_no_duplication repoExistingBash testExistingBashSettings rfl (by decide)

theorem mkReport_countsOk (rs : List LintResult) (n : Nat) :
    reportCountsOk (mkReport rs n) :=
  ⟨rfl, rfl, rfl, countP_severity_partition rs⟩

/-- C4: Report count consistency — every report produced by the check run or
the fix run has errorCount, warningCount and infoCount equal to the count of
its results of that severity, their sum equals the number of results, and
fixedCount is whatever fixed count the run supplies, independent of the
results. -/
theorem claim4_report_counts (s : RepoState) (rs : List LintResult) (n : Nat) :
    reportCountsOk (engineLint s) ∧ reportCountsOk (engineFix s).2 ∧
    (mkReport rs n).fixedCount = n :=
  ⟨mkReport_countsOk _ _, mkReport_countsOk _ _, rfl⟩

/-- C5: End-to-end claude-settings lifecycle — with no .claude directory, the
check run yields exactly one claude-settings-hooks finding, of error severity,
whose message mentions .claude; the fix run creates settings with a
hooks.PreToolUse entry for matcher Bash; and the subsequent check run yields
zero findings for that rule. -/
theorem claim5_end_to_end (s : RepoState) (h : s.claude = SettingsState.absentDir) :
    (engineLint s).results.filter (fun f => f.ruleId == claudeRuleId)
        = [missingClaudeDirFinding s.path] ∧
    (missingClaudeDirFinding s.path).severity = Severity.error ∧
    isSubstr ".claude".toList (missingClaudeDirFinding s.path).message = true ∧
    (engineFix s).1.claude = SettingsState.parsed defaultSettingsFields ∧
    settingsHasBash defaultSettingsFields = true ∧
    (engineLint (engineFix s).1).results.filter (fun f => f.ruleId == claudeRuleId) = [] := by
  refine ⟨?_, rfl, ?_, ?_, settingsHasBash_default, ?_⟩
  · show (engineChecks s).filter _ = _
    rw [engineChecks_filter_claude]
    show claudeCheckFile s.path s.claude = _
    rw [h]
    rfl
  · rw [show (missingClaudeDirFinding s.path).message
        = "Missing .claude directory with settings.json".toList from rfl]
    decide
  · show (afterCspell s).claude = _
    rw [afterCspell_claude, h]
    rfl
  · show (engineChecks (afterCspell s)).filter _ = _
    rw [engineChecks_filter_claude]
    show claudeCheckFile (afterCspell s).path (afterCspell s).claude = []
    rw [afterCspell_claude, h]
    rw [show (claudeFixFile SettingsState.absentDir).1
          = SettingsState.parsed defaultSettingsFields from rfl]
    exact (claudeCheck_parsed_nil_iff _ _).mpr settingsHasBash_default

theorem claim5_witness :
    (engineLint repoNoClaude).results.filter (fun f => f.ruleId == claudeRuleId)
        = [missingClaudeDirFinding repoNoClaude.path] ∧
    (missingClaudeDirFinding repoNoClaude.path).severity = Severity.error ∧
    isSubstr ".claude".toList (missingClaudeDirFinding repoNoClaude.path).message = true ∧
    (engineFix repoNoClaude).1.claude = SettingsState.parsed defaultSettingsFields ∧
    settingsHasBash defaultSettingsFields = true ∧
    (engineLint (engineFix repoNoClaude).1).results.filter
        (fun f => f.ruleId == claudeRuleId) = [] :=
  claim5_end_to_end repoNoClaude rfl

theorem isPrefixList_extend (n : List Char) :
    ∀ h t : List Char, isPrefixList n h = true → isPrefixList n (h ++ t) = true := by
  induction n with
  | nil =>
    intro h t hp
    simp [isPrefixList]
  | cons c cs ih =>
    intro h t hp
    cases h with
    | nil => simp [isPrefixList] at hp
    | cons d ds =>
      simp only [isPrefixList, Bool.and_eq_true] at hp
      simp only [List.cons_append, isPrefixList, Bool.and_eq_true]
      exact ⟨hp.1, ih ds t hp.2⟩

theorem isSubstr_nil_needle (t : List Char) : isSubstr [] t = true := by
  cases t with
  | nil => rfl
  | cons c rest => simp [isSubstr, isPrefixList]

theorem isSubstr_append_left (n : List Char) :
    ∀ h t : List Char, isSubstr n h = true → isSubstr n (h ++ t) = true := by
  intro h
  induction h with
  | nil =>
    intro t hs
    cases n with
    | nil => exact isSubstr_nil_needle t
    | cons c cs => simp [isSubstr, isPrefixList] at hs
  | cons c rest ih =>
    intro t hs
    simp only [isSubstr, Bool.or_eq_true] at hs
    simp only [List.cons_append, isSubstr, Bool.or_eq_true]
    rcases hs with h1 | h1
    · exact Or.inl (isPrefixList_extend n (c :: rest) t h1)
    · exact Or.inr (ih t h1)

theorem isSubstr_append_right (n h t : List Char) (hs : isSubstr n t = true) :
    isSubstr n (h ++ t) = true := by
  induction h with
  | nil => exact hs
  | cons c rest ih =>
    simp only [List.cons_append, isSubstr, Bool.or_eq_true]
    exact Or.inr ih

theorem isSubstr_append_self (x n : List Char) : isSubstr n (x ++ n) = true := by
  have h := isSubstr_mid n x []
  rwa [List.append_nil] at h

theorem isSubstr_joinComma (l : List (List Char)) :
    ∀ q ∈ l, isSubstr q (joinComma l) = true := by
  induction l with
  | nil =>
    intro q hq
    simp at hq
  | cons x rest ih =>
    intro q hq
    cases rest with
    | nil =>
      simp at hq
      rw [hq]
      exact isSubstr_append_self [] x
    | cons y rest2 =>
      simp only [joinComma]
      rcases List.mem_cons.mp hq with h1 | h1
      · rw [h1]
        apply isSubstr_append_left
        exact isSubstr_mid x [] (", ".toList)
      · exact isSubstr_append_right _ _ _ (ih q h1)

/-- C6: Word-boundary detection — the standalone-command scanner of the
package-manager consistency rule accepts exactly the strings in which npm
occurs as a complete word-character token, so the rule flags a script exactly
when some script value has npm as a standalone token, and never when npm only
occurs inside a longer token. -/
theorem claim6_word_boundary (s : RepoState) (m : Manifest) (h : s.manifest = some m) :
    (∀ cmd : List Char, contains_standalone_command cmd npmName = true ↔ npmName ∈ tokens cmd) ∧
    (pnpmCheckS s = [] ↔ ∀ p ∈ m.scripts, npmName ∉ tokens p.2) := by
  have hiff : ∀ cmd : List Char,
      contains_standalone_command cmd npmName = true ↔ npmName ∈ tokens cmd :=
    fun cmd => contains_standalone_iff_token cmd npmName (by decide) (by decide)
  refine ⟨hiff, ?_⟩
  unfold pnpmCheckS
  simp only [h]
  constructor
  · intro hnil p hp hmem
    have hc : contains_standalone_command p.2 npmName = true := (hiff p.2).mpr hmem
    have hin : (⟨pnpmRuleId, "pnpm-script-usage".toList, Severity.warning,
        pnpmScriptMessage p.1, s.path, none, some pnpmSuggestion⟩ : LintResult)
          ∈ m.scripts.filterMap (fun p =>
            if contains_standalone_command p.2 npmName then
              some ⟨pnpmRuleId, "pnpm-script-usage".toList, Severity.warning,
                    pnpmScriptMessage p.1, s.path, none, some pnpmSuggestion⟩
            else none) := by
      apply List.mem_filterMap.mpr
      exact ⟨p, hp, by simp [hc]⟩
    rw [hnil] at hin
    cases hin
  · intro hall
    rw [List.filterMap_eq_nil_iff]
    intro p hp
    have hno : ¬ npmName ∈ tokens p.2 := hall p hp
    have hc : contains_standalone_command p.2 npmName = false := by
      cases hcc : contains_standalone_command p.2 npmName
      · rfl
      · exact absurd ((hiff p.2).mp hcc) hno
    simp [hc]

theorem claim6_witness :
    pnpmCheckS repoPnpmNeg = [] ∧ pnpmCheckS repoPnpmPos ≠ [] := by
  constructor
  · exact (claim6_word_boundary repoPnpmNeg pnpmManifestNeg rfl).2.mpr (by decide)
  · intro hnil
    have hall := (claim6_word_boundary repoPnpmPos pnpmManifestPos rfl).2.mp hnil
    exact hall ("build".toList, "npm run build".toList) (by decide) (by decide)

/-- C7 counterexample: the LintResult interface declared at the TypeScript
boundary (src/native.ts) does not contain a checkId field, so the claimed
fixed field set with checkId does not match the declared boundary shape. -/
theorem claim7_counterexample :
    "checkId".toList ∉ tsLintResultFields.map Prod.fst ∧
    tsLintResultFields.map Prod.fst ≠ claimedFindingFields.map Prod.fst := by
  decide

/-- C7 amended: the declared TypeScript boundary interface LintResult has
exactly the fields ruleId, severity, message, path, line?, suggestion? (with
only line and suggestion optional) and no checkId field, while the engine
output observed by the e2e tests carries a checkId on its findings. -/
theorem claim7_amended :
    tsLintResultFields.map Prod.fst
        = ["ruleId".toList, "severity".toList, "message".toList, "path".toList,
           "line".toList, "suggestion".toList] ∧
    (tsLintResultFields.filter Prod.snd).map Prod.fst
        = ["line".toList, "suggestion".toList] ∧
    "checkId".toList ∉ tsLintResultFields.map Prod.fst ∧
    (∃ f ∈ cspellCheckS cspellDemoRepo, f.checkId = "cspell-json-exists".toList) := by
  refine ⟨by decide, by decide, by decide, ?_⟩
  decide

/-- C8: Root-path absence is the only fatal failure — a missing root yields
the NotFoundError and a non-zero CLI exit, while any existing root yields a
report in which a failing rule is recorded as a synthetic finding, every
non-failing rule's findings are kept, and unreadable directories are recorded
as findings rather than aborting the run. -/
theorem claim8_error_isolation (w : World) (e : RepoEntry) (r : MRule)
    (he : e ∈ w.repos) (hr : r ∈ ruleRegistry) :
    runRoot none = Except.error RunError.notFound ∧
    cliExitCode none = 1 ∧
    runRoot (some w) = Except.ok (runWorld w) ∧
    (r.id ∈ e.failing → syntheticFinding r.id e.state.path ∈ (runWorld w).results) ∧
    (r.id ∉ e.failing → ∀ f ∈ r.check e.state, f ∈ (runWorld w).results) ∧
    (∀ d ∈ w.unreadable, permFinding d ∈ (runWorld w).results) := by
  refine ⟨rfl, rfl, rfl, ?_, ?_, ?_⟩
  · intro hin
    show _ ∈ w.unreadable.map permFinding ++ w.repos.flatMap repoRunFindings
    apply List.mem_append.mpr
    apply Or.inr
    apply List.mem_flatMap.mpr
    refine ⟨e, he, ?_⟩
    unfold repoRunFindings
    apply List.mem_flatMap.mpr
    refine ⟨r, hr, ?_⟩
    simp [hin]
  · intro hout f hfm
    show _ ∈ w.unreadable.map permFinding ++ w.repos.flatMap repoRunFindings
    apply List.mem_append.mpr
    apply Or.inr
    apply List.mem_flatMap.mpr
    refine ⟨e, he, ?_⟩
    unfold repoRunFindings
    apply List.mem_flatMap.mpr
    refine ⟨r, hr, ?_⟩
    rw [if_neg hout]
    exact hfm
  · intro d hd
    show _ ∈ w.unreadable.map permFinding ++ w.repos.flatMap repoRunFindings
    apply List.mem_append.mpr
    exact Or.inl (List.mem_map.mpr ⟨d, hd, rfl⟩)

theorem claim8_witness :
    runRoot (some claim8World) = Except.ok (runWorld claim8World) ∧
    syntheticFinding huskyRuleId repoNoClaude.path ∈ (runWorld claim8World).results ∧
    missingClaudeDirFinding repoNoClaude.path ∈ (runWorld claim8World).results ∧
    permFinding "secret-dir".toList ∈ (runWorld claim8World).results := by
  have h1 := claim8_error_isolation claim8World claim8Entry huskyMRule
    (List.mem_cons_self _ _)
    (by unfold ruleRegistry; exact List.mem_cons_of_mem _ (List.mem_cons_self _ _))
  have h2 := claim8_error_isolation claim8World claim8Entry claudeMRule
    (List.mem_cons_self _ _)
    (by unfold ruleRegistry; exact List.mem_cons_self _ _)
  refine ⟨h1.2.2.1, h1.2.2.2.1 (by decide), ?_, h1.2.2.2.2.2 "secret-dir".toList (by simp [claim8World])⟩
  exact h2.2.2.2.2.1 (by decide) (missingClaudeDirFinding repoNoClaude.path) (by decide)

/-- C9: Partial-manifest skip — a repository with neither package.json nor
Cargo.toml produces zero findings from the husky-init scaffolding rule. -/
theorem claim9_partial_manifest_skip (s : RepoState) (h1 : s.manifest = none)
    (h2 : s.cargo = none) : huskyCheckS s = [] := by
  simp [huskyCheckS, h1, h2]

theorem claim9_witness : huskyCheckS repoNoClaude = [] :=
  claim9_partial_manifest_skip repoNoClaude rfl rfl

/-- C10 counterexample: on an unsupported platform with no loadable binding,
importing the module throws the unsupported-platform error — the message does
not list the attempted locations, because the final error template re-invokes
getPackageName outside the try/catch; so the claim that the thrown error
always lists the attempted locations is false. -/
theorem claim10_counterexample :
    loadNativeBinding envUnsupported = Except.error ("Unsupported platform: freebsd".toList) ∧
    isSubstr "Tried".toList ("Unsupported platform: freebsd".toList) = false ∧
    isSubstr "local paths".toList ("Unsupported platform: freebsd".toList) = false ∧
    getPackageName envUnsupported.platform envUnsupported.arch
        = Except.error ("Unsupported platform: freebsd".toList) :=
  ⟨rfl, by decide, by decide, rfl⟩

/-- C10 amended: loading is eager and always either yields the binding or
throws; for a supported platform/architecture pair whose npm package fails to
load and with no local binding file, the thrown error lists the attempted
locations — the npm package name and both local paths; on an unsupported
platform the unsupported-platform error is thrown instead. -/
theorem claim10_amended (env : NodeEnv) (pkg : List Char)
    (hpkg : getPackageName env.platform env.arch = Except.ok pkg)
    (hnpm : env.packageLoads pkg = false)
    (hlocal : ∀ q ∈ localBindingPaths (getLocalBindingName env.platform env.arch),
        env.fileExists q = false) :
    loadNativeBinding env
        = Except.error (failedMessage pkg
            (localBindingPaths (getLocalBindingName env.platform env.arch))
            env.platform env.arch) ∧
    isSubstr "Failed to load native binding. Tried:".toList
        (failedMessage pkg (localBindingPaths (getLocalBindingName env.platform env.arch))
          env.platform env.arch) = true ∧
    isSubstr pkg
        (failedMessage pkg (localBindingPaths (getLocalBindingName env.platform env.arch))
          env.platform env.arch) = true ∧
    (∀ q ∈ localBindingPaths (getLocalBindingName env.platform env.arch),
      isSubstr q
        (failedMessage pkg (localBindingPaths (getLocalBindingName env.platform env.arch))
          env.platform env.arch) = true) := by
  have hfind : (localBindingPaths (getLocalBindingName env.platform env.arch)).find?
      env.fileExists = none := by
    rw [List.find?_eq_none]
    intro x hx
    simp [hlocal x hx]
  refine ⟨?_, ?_, ?_, ?_⟩
  · unfold loadNativeBinding
    simp only [hpkg, hnpm]
    unfold loadLocalOrFail
    simp only [hfind, hpkg]
    simp
  · unfold failedMessage
    apply isSubstr_append_left
    apply isSubstr_append_left
    apply isSubstr_append_left
    apply isSubstr_append_left
    apply isSubstr_append_left
    apply isSubstr_append_left
    apply isSubstr_append_left
    decide
  · unfold failedMessage
    apply isSubstr_append_left
    apply isSubstr_append_left
    apply isSubstr_append_left
    apply isSubstr_append_left
    apply isSubstr_append_left
    apply isSubstr_append_left
    exact isSubstr_append_self _ pkg
  · intro q hq
    unfold failedMessage
    apply isSubstr_append_left
    apply isSubstr_append_left
    apply isSubstr_append_left
    apply isSubstr_append_left
    apply isSubstr_append_right
    exact isSubstr_joinComma _ q hq

theorem claim10_witness :
    loadNativeBinding envLinuxNone
        = Except.error (failedMessage "@lineup-agent/linux-x64-gnu".toList
            (localBindingPaths (getLocalBindingName envLinuxNone.platform envLinuxNone.arch))
            envLinuxNone.platform envLinuxNone.arch) ∧
    isSubstr "Failed to load native binding. Tried:".toList
        (failedMessage "@lineup-agent/linux-x64-gnu".toList
          (localBindingPaths (getLocalBindingName envLinuxNone.platform envLinuxNone.arch))
          envLinuxNone.platform envLinuxNone.arch) = true := by
  have h := claim10_amended envLinuxNone "@lineup-agent/linux-x64-gnu".toList rfl rfl
    (by decide)
  exact ⟨h.1, h.2.1⟩

end LineupAgent
